import Mathlib

/-!
Verification of the asset-management application (khaira95/asset-management).

Shallow embedding of the core client logic: the sequential asset-name
generator (src/src/views/Assets.vue, generateAssetName; src/supabase/schema.sql,
get_next_asset_name), the field-level change tracker (Assets.vue, trackChanges;
Staff.vue, saveStaff), the save error mapping of each view, the category code
normalization (Categories.vue, saveCategory) and the point-in-time status
reconstruction of the dashboard (fetchMonthlyData, effective-date version).

JavaScript strings are modelled by String, nullable values by Option,
timestamps by Int (the value of Date.getTime, with date-string parsing
abstracted away), and database or network failures by explicit error inputs.
-/

namespace AssetMgmt

/-- Characters matched by the regular-expression class for digits and accepted
by an SQL integer cast: codes 48 through 57. -/
def isDigitChar (c : Char) : Bool := 48 ≤ c.toNat && c.toNat ≤ 57

/-- Decimal digit character for a value below ten. -/
def digitChar (n : Nat) : Char := Char.ofNat (48 + n)

/-- Fuel-indexed decimal rendering of a natural number, most significant digit
first. -/
def natDigitsGo : Nat → Nat → List Char
  | 0, _ => []
  | fuel + 1, n =>
    if n < 10 then [digitChar n] else natDigitsGo fuel (n / 10) ++ [digitChar (n % 10)]

/-- Decimal digits of a natural number; models the JavaScript conversion of a
nonnegative number to a string, and the text rendering used by the SQL
function. -/
def natDigits (n : Nat) : List Char := natDigitsGo (n + 1) n

/-- String form of `natDigits`. -/
def natToDigits (n : Nat) : String := String.mk (natDigits n)

/-- Numeric value of a digit string; models parseInt applied to an all-digit
string and the SQL cast of such a string to an integer. -/
def parseDigits (l : List Char) : Nat := l.foldl (fun acc c => acc * 10 + (c.toNat - 48)) 0

/-- Models the JavaScript call padStart(3, zero): left-pad with the zero
character up to width three. -/
def pad3 (s : String) : String :=
  if s.length < 3 then String.mk (List.replicate (3 - s.length) '0') ++ s else s

/-- Boolean test that `p` begins `l`; models the SQL pattern `p%` of the like
filter used by both generators. -/
def startsWithList (p l : List Char) : Bool := decide (l.take p.length = p)

/-- Boolean test that `p` ends `l`. -/
def endsWithList (p l : List Char) : Bool := decide (l.drop (l.length - p.length) = p)

/-- Models matching the regular expression built as the name prefix followed by
a parenthesised digit run and the end anchor, for a literal prefix whose final
character is a dash (every generator prefix ends in a dash, so the match
position is unique when it exists): the match succeeds exactly when the name
ends in a nonempty digit run immediately preceded by the prefix; the captured
number is that digit run read by parseInt. -/
def matchNum (p name : String) : Option Nat :=
  let ds := (name.data.reverse.takeWhile isDigitChar).reverse
  if ds = [] then none
  else if endsWithList p.data (name.data.take (name.data.length - ds.length))
  then some (parseDigits ds) else none

/-- A category row: id, short code (the asset-name infix) and display name. -/
structure Category where
  id : Nat
  code : String
  name : String
deriving DecidableEq, Repr

/-- The maximum numeric suffix taken over all asset names that pass the prefix
filter and match the extraction regex, zero when none match, computed exactly as
the forEach loop of generateAssetName computes it. -/
def maxSuffix (pfx : String) (assetNames : List String) : Nat :=
  ((assetNames.filter (fun a => startsWithList pfx.data a.data)).filterMap
    (fun a => matchNum pfx a)).foldl (fun m n => if n > m then n else m) 0

/-- Embeds generateAssetName from src/src/views/Assets.vue: look up the category
by id (returning the empty string when absent), build the prefix from the fixed
organisation tag and the category code, scan existing asset names with that
prefix, extract each trailing number, take the maximum (zero when none), and
return the prefix followed by the successor left-padded to three digits. -/
def generateAssetName (categories : List Category) (assetNames : List String)
    (categoryId : Nat) : String :=
  match categories.find? (fun c => c.id == categoryId) with
  | none => ""
  | some category =>
    let pfx := ("KLSB-" ++ category.code ++ "-" : String)
    pfx ++ pad3 (natToDigits (maxSuffix pfx assetNames + 1))

/-- SQL cast of a text value to an integer, restricted to the nonnegative digit
strings arising here; none models the cast raising an error. -/
def castIntOpt (l : List Char) : Option Nat :=
  if l ≠ [] ∧ l.all isDigitChar then some (parseDigits l) else none

/-- Embeds the SQL function get_next_asset_name from src/supabase/schema.sql:
names passing the like filter have the prefix length dropped, the remainder is
cast to an integer, and the prefix is returned with the successor of the
maximum (zero via coalesce when no rows match) left-padded to three digits.
Returns none when any cast fails, modelling the SQL error. -/
def get_next_asset_name (assetNames : List String) (category_code : String) : Option String :=
  let pfx := ("KLSB-" ++ category_code ++ "-" : String)
  let matched := assetNames.filter (fun a => startsWithList pfx.data a.data)
  let nums := matched.map (fun a => castIntOpt (a.data.drop pfx.length))
  if nums.all Option.isSome then
    some (pfx ++ pad3 (natToDigits
      ((nums.filterMap id).foldl (fun m n => if n > m then n else m) 0 + 1)))
  else none

/-- The canonical generated name for sequence position `i` in a category:
prefix followed by `i` left-padded to three digits. -/
def mkName (code : String) (i : Nat) : String :=
  ("KLSB-" ++ code ++ "-") ++ pad3 (natToDigits i)

/-- The asset-name list of a category holding exactly positions one through N. -/
def seqNames (code : String) (N : Nat) : List String :=
  (List.range N).map (fun i => mkName code (i + 1))

/-! Change tracker (src/src/views/Assets.vue, trackChanges and saveAsset). -/

/-- A staff row as used for name resolution. -/
structure StaffRec where
  id : Nat
  name : String
deriving DecidableEq, Repr

/-- The fields of an asset read and written by trackChanges and saveAsset.
The id references are Option Nat (none models both null and the empty form
value, which the code coerces to null before comparing); the free-text fields
are Option String with none for null. -/
structure AssetFields where
  asset_name : String
  status : String
  staff_id : Option Nat
  category_id : Option Nat
  serial_number : Option String
  description : Option String
  purchase_date : Option String
deriving DecidableEq, Repr

/-- One entry of the changes array built by trackChanges. -/
structure Change where
  field_name : String
  old_value : Option String
  new_value : Option String
  custom_date : Option String
deriving DecidableEq, Repr

/-- Models the normalisation applied before comparing a nullable text field:
the JavaScript String conversion of the value or the empty string, so null,
undefined and the empty string all normalise to the empty string. -/
def jsStr (o : Option String) : String := o.getD ""

/-- Truthiness of an optional string: false for absent and for empty. -/
def jsTruthyStr (o : Option String) : Bool :=
  match o with
  | none => false
  | some s => !(s == "")

/-- A string or, when it is empty, a default; models the JavaScript
or-else idiom on strings. -/
def jsOrStr (s dflt : String) : String := if s = "" then dflt else s

/-- Resolution of a staff id to the staff display name as trackChanges does it:
a missing id, an unknown id and an empty name all give null. -/
def resolveStaffName (staffList : List StaffRec) (sid : Option Nat) : Option String :=
  match sid with
  | none => none
  | some i =>
    match staffList.find? (fun s => s.id == i) with
    | none => none
    | some s => if s.name = "" then none else some s.name

/-- Resolution of a category id to the category display name, as trackChanges
does it. -/
def resolveCategoryName (cats : List Category) (cid : Option Nat) : Option String :=
  match cid with
  | none => none
  | some i =>
    match cats.find? (fun c => c.id == i) with
    | none => none
    | some c => if c.name = "" then none else some c.name

/-- Embeds the changes array computed by trackChanges: one entry per tracked
field whose normalised old and new values differ, in source order: status,
assigned staff, category, serial number, description, purchase date. Status
entries carry the caller-supplied status date as a custom date; staff and
category entries record resolved names, not ids. -/
def trackChangesList (staffList : List StaffRec) (cats : List Category)
    (oldAsset newData : AssetFields) (statusDate : Option String) : List Change :=
  (if oldAsset.status ≠ newData.status then
    [⟨"status", some oldAsset.status, some newData.status, statusDate⟩] else [])
  ++ (if oldAsset.staff_id ≠ newData.staff_id then
    [⟨"assigned_to", resolveStaffName staffList oldAsset.staff_id,
      resolveStaffName staffList newData.staff_id, none⟩] else [])
  ++ (if oldAsset.category_id ≠ newData.category_id then
    [⟨"category", resolveCategoryName cats oldAsset.category_id,
      resolveCategoryName cats newData.category_id, none⟩] else [])
  ++ (if jsStr oldAsset.serial_number ≠ jsStr newData.serial_number then
    [⟨"serial_number", oldAsset.serial_number, newData.serial_number, none⟩] else [])
  ++ (if jsStr oldAsset.description ≠ jsStr newData.description then
    [⟨"description", oldAsset.description, newData.description, none⟩] else [])
  ++ (if jsStr oldAsset.purchase_date ≠ jsStr newData.purchase_date then
    [⟨"purchase_date", oldAsset.purchase_date, newData.purchase_date, none⟩] else [])

/-- A row inserted into asset_history. -/
structure HistoryInsert where
  asset_id : Nat
  user_id : String
  field_name : String
  old_value : Option String
  new_value : Option String
  change_type : String
  effective_date : Option String
deriving DecidableEq, Repr

/-- The insert payload built from one change: the effective date is set only
when the custom date is truthy (present and nonempty). -/
def changeToInsert (assetId : Nat) (uid : String) (c : Change) : HistoryInsert :=
  ⟨assetId, uid, c.field_name, c.old_value, c.new_value, ("update" : String),
    if jsTruthyStr c.custom_date then c.custom_date else none⟩

/-- The insert loop of trackChanges: each change is attempted in order; a
failed insert (per the failure-flag list, false beyond its end) adds nothing to
the table but appends a console log entry, and the loop continues. Returns the
inserted rows and the log entries. -/
def insertLoop (assetId : Nat) (uid : String) :
    List Change → List Bool → List HistoryInsert × List String
  | [], _ => ([], [])
  | c :: cs, failFlags =>
    let rest := insertLoop assetId uid cs failFlags.tail
    if failFlags.headD false then (rest.1, ("Error inserting history:") :: rest.2)
    else (changeToInsert assetId uid c :: rest.1, rest.2)

/-- Embeds the effectful part of trackChanges: with no authenticated user it
only logs and inserts nothing; otherwise it runs the insert loop over the
computed changes. All failures are caught, so the caller never sees an error. -/
def runTrackChanges (user : Option String) (staffList : List StaffRec) (cats : List Category)
    (assetId : Nat) (oldAsset newData : AssetFields) (statusDate : Option String)
    (failFlags : List Bool) : List HistoryInsert × List String :=
  match user with
  | none => ([], [("No user found for tracking changes")])
  | some uid => insertLoop assetId uid
      (trackChangesList staffList cats oldAsset newData statusDate) failFlags

/-- An error value returned by the data store: message text and optional code. -/
structure DbError where
  message : String
  code : Option String
deriving DecidableEq, Repr

/-- Boolean substring test; models the JavaScript includes method. -/
def strIncludes (s pat : String) : Bool :=
  (List.range (s.data.length + 1)).any
    (fun i => decide (pat.data = (s.data.drop i).take pat.data.length))

/-- The catch-block error mapping of saveAsset (src/src/views/Assets.vue). -/
def saveAssetErrorMessage (e : DbError) : String :=
  if strIncludes e.message ("duplicate") || e.code == some ("23505") then
    if strIncludes e.message ("asset_name") then "Asset name already exists"
    else if strIncludes e.message ("serial_number") then "Serial number already exists"
    else "Duplicate entry"
  else jsOrStr e.message ("Failed to save asset")

/-- The catch-block error mapping of saveCategory (src/src/views/Categories.vue);
note it tests only the message text, not the error code. -/
def saveCategoryErrorMessage (e : DbError) : String :=
  if strIncludes e.message ("duplicate") then "Category code already exists"
  else jsOrStr e.message ("Failed to save category")

/-- The catch-block error mapping of saveStaff (src/src/views/Staff.vue). -/
def saveStaffErrorMessage (e : DbError) : String :=
  if strIncludes e.message ("duplicate") || e.code == some ("23505") then
    "Staff ID already exists"
  else jsOrStr e.message ("Failed to save staff")

/-- The catch-block error mapping of saveLicense (src/src/views/Licenses.vue). -/
def saveLicenseErrorMessage (e : DbError) : String :=
  if strIncludes e.message ("duplicate") || e.code == some ("23505") then
    "License key already exists"
  else jsOrStr e.message ("Failed to save license")

/-- A single insert guarded by a try-catch as every save function performs it:
on failure the table is unchanged and the mapped message becomes the form
error; on success the row is appended. -/
def runInsertRow {α : Type} (rows : List α) (row : α) (err : Option DbError)
    (mapErr : DbError → String) : List α × Option String :=
  match err with
  | some e => (rows, some (mapErr e))
  | none => (rows ++ [row], none)

/-- The assets and asset_history tables. -/
structure AssetsDb where
  assets : List (Nat × AssetFields)
  history : List HistoryInsert
deriving DecidableEq, Repr

/-- Observable outcome of a saveAsset call: resulting tables, form error,
whether the modal was closed and the data refetched, how many times the
primary update ran, and the console log entries. -/
structure SaveOutcome where
  db : AssetsDb
  formError : Option String
  modalClosed : Bool
  refreshed : Bool
  updateAttempts : Nat
  logs : List String
deriving DecidableEq, Repr

/-- The primary update: replace the fields of the row with the matching id. -/
def applyUpdate (assets : List (Nat × AssetFields)) (id : Nat) (p : AssetFields) :
    List (Nat × AssetFields) :=
  assets.map (fun r => if r.1 == id then (id, p) else r)

/-- The status date passed by saveAsset to trackChanges: the form status date
when the selected status differs from the status at edit time, else absent. -/
def saveAssetStatusDate (formStatus originalStatus formStatusDate : String) : Option String :=
  if formStatus ≠ originalStatus then some formStatusDate else none

/-- Embeds the update path of saveAsset: the primary update runs once; on its
failure the error mapping sets the form error and nothing else happens; on its
success the asset row is updated, trackChanges runs with every insert failure
swallowed, the data is refetched and the modal closed with no form error. -/
def runSaveAssetUpdate (user : Option String) (staffList : List StaffRec)
    (cats : List Category) (db : AssetsDb) (editingId : Nat)
    (oldAsset payload : AssetFields) (statusDate : Option String)
    (updateError : Option DbError) (failFlags : List Bool) : SaveOutcome :=
  match updateError with
  | some e => ⟨db, some (saveAssetErrorMessage e), false, false, 1, []⟩
  | none =>
    let tracked := runTrackChanges user staffList cats editingId oldAsset payload
      statusDate failFlags
    ⟨⟨applyUpdate db.assets editingId payload, db.history ++ tracked.1⟩,
      none, true, true, 1, tracked.2⟩

/-- The whitespace characters stripped by the JavaScript trim used on form
input: space, tab, line feed, carriage return. -/
def isWsChar (c : Char) : Bool :=
  c.toNat == 32 || c.toNat == 9 || c.toNat == 10 || c.toNat == 13

/-- Strip whitespace from both ends of a character list. -/
def trimData (l : List Char) : List Char :=
  ((l.dropWhile isWsChar).reverse.dropWhile isWsChar).reverse

/-- Models the JavaScript trim method. -/
def jsTrim (s : String) : String := String.mk (trimData s.data)

/-- The required-field validation at the top of saveAsset: a blank asset name
is rejected first, then a missing category. -/
def saveAssetValidationError (asset_name : String) (category_id : Option Nat) : Option String :=
  if jsTrim asset_name = "" then some ("Asset name is required")
  else if category_id = none then some ("Category is required")
  else none

/-! Staff location history (src/src/views/Staff.vue, saveStaff). -/

/-- A location row. -/
structure LocationRec where
  id : Nat
  name : String
deriving DecidableEq, Repr

/-- A row inserted into staff_history. -/
structure StaffHistoryInsert where
  staff_id : Nat
  user_id : String
  field_name : String
  old_value : String
  new_value : String
  change_type : String
  effective_date : Option String
deriving DecidableEq, Repr

/-- Embeds getLocationName: a missing id, an unknown id and an empty name all
render as a dash. -/
def getLocationName (locations : List LocationRec) (locationId : Option Nat) : String :=
  match locationId with
  | none => "-"
  | some i =>
    match locations.find? (fun l => l.id == i) with
    | none => "-"
    | some l => jsOrStr l.name ("-")

/-- Embeds the staff_history insert of saveStaff: performed only when the
location changed; values are resolved location names; the effective date is
the entered date, or null when the field was left empty. -/
def staffLocationHistoryRow (locations : List LocationRec) (user : Option String)
    (staffId : Nat) (originalLocationId newLocationId : Option Nat)
    (locationChangeDate : String) : Option StaffHistoryInsert :=
  if originalLocationId ≠ newLocationId then
    some ⟨staffId, user.getD ("system"), ("location" : String),
      getLocationName locations originalLocationId,
      getLocationName locations newLocationId, ("update" : String),
      if locationChangeDate = "" then none else some locationChangeDate⟩
  else none

/-! Category code normalisation (src/src/views/Categories.vue, saveCategory). -/

/-- Models the JavaScript toUpperCase method on the code points stored in
category codes: lower-case ASCII letters map to upper case, all else is
unchanged. -/
def jsCharUpper (c : Char) : Char :=
  if 97 ≤ c.toNat ∧ c.toNat ≤ 122 then Char.ofNat (c.toNat - 32) else c

/-- String form of `jsCharUpper`. -/
def jsToUpper (s : String) : String := String.mk (s.data.map jsCharUpper)

/-- Embeds the code normalisation of saveCategory: the entered code is trimmed
and then upper-cased before being persisted. -/
def saveCategoryCode (raw : String) : String := jsToUpper (jsTrim raw)

/-! Point-in-time status reconstruction (fetchMonthlyData, effective-date
version, src/unnamed/part_006). -/

/-- A status audit row as fetched by the dashboard: new value, optional
effective date, record creation time. Times are Int values of Date.getTime;
a null or empty effective date is modelled by none. -/
structure HistoryRow where
  asset_id : Nat
  new_value : Option String
  effective_date : Option Int
  created_at : Int
deriving DecidableEq, Repr

/-- An asset as fetched by the dashboard. -/
structure AssetRec where
  id : Nat
  status : String
  created_at : Int
deriving DecidableEq, Repr

/-- The ordering key of an audit row: its effective date when set, otherwise
its record creation time. -/
def changeKey (h : HistoryRow) : Int := h.effective_date.getD h.created_at

/-- The audit rows of one asset whose key is at or before the cutoff. -/
def historyUpTo (history : List HistoryRow) (assetId : Nat) (t : Int) : List HistoryRow :=
  history.filter (fun h => h.asset_id == assetId && decide (changeKey h ≤ t))

/-- Stable insertion of a row into a key-sorted list: the new row goes before
the first row of strictly greater or equal key position-wise compatible with a
stable ascending sort. -/
def insertByKey (x : HistoryRow) : List HistoryRow → List HistoryRow
  | [] => [x]
  | y :: ys => if changeKey x ≤ changeKey y then x :: y :: ys else y :: insertByKey x ys

/-- Stable ascending sort by key; models the JavaScript sort with the
key-difference comparator, which is stable. -/
def sortByKey : List HistoryRow → List HistoryRow
  | [] => []
  | x :: xs => insertByKey x (sortByKey xs)

/-- The status attributed to an asset at a cutoff: the new value of the last
filtered row after the ascending stable sort when that value is truthy, the
default active status when it is not, and the asset's current status when no
row passed the filter. -/
def statusAtMonth (history : List HistoryRow) (a : AssetRec) (t : Int) : String :=
  let hs := sortByKey (historyUpTo history a.id t)
  match hs.getLast? with
  | none => a.status
  | some last =>
    match last.new_value with
    | none => "active"
    | some v => if v = "" then "active" else v

/-- Whether an asset is counted in the bucket with the given cutoff: the loop
body returns early exactly when the asset was created after the cutoff and has
no filtered audit row. -/
def countedInBucket (history : List HistoryRow) (a : AssetRec) (t : Int) : Bool :=
  !(decide (t < a.created_at) && (historyUpTo history a.id t).isEmpty)

/-! Lemmas about decimal rendering and parsing. -/

theorem digitChar_toNat {m : Nat} (h : m < 10) : (digitChar m).toNat = 48 + m := by
  interval_cases m <;> decide

theorem isDigitChar_digitChar {m : Nat} (h : m < 10) : isDigitChar (digitChar m) = true := by
  interval_cases m <;> decide

theorem natDigitsGo_all_digit : ∀ fuel n, n < fuel →
    ∀ c ∈ natDigitsGo fuel n, isDigitChar c = true := by
  intro fuel
  induction fuel with
  | zero => intro n h; omega
  | succ fuel ih =>
    intro n h c hc
    by_cases h10 : n < 10
    · simp only [natDigitsGo, if_pos h10, List.mem_singleton] at hc
      subst hc; exact isDigitChar_digitChar h10
    · simp only [natDigitsGo, if_neg h10, List.mem_append, List.mem_singleton] at hc
      rcases hc with hc | hc
      · have hdiv : n / 10 < fuel := by
          have hlt := Nat.div_lt_self (show 0 < n by omega) (show 1 < 10 by omega)
          omega
        exact ih (n / 10) hdiv c hc
      · subst hc; exact isDigitChar_digitChar (Nat.mod_lt _ (by omega))

theorem natDigitsGo_ne_nil : ∀ fuel n, n < fuel → natDigitsGo fuel n ≠ [] := by
  intro fuel
  cases fuel with
  | zero => intro n h; omega
  | succ fuel =>
    intro n h
    by_cases h10 : n < 10 <;> simp [natDigitsGo, h10]

theorem natDigitsGo_parse : ∀ fuel n, n < fuel → parseDigits (natDigitsGo fuel n) = n := by
  intro fuel
  induction fuel with
  | zero => intro n h; omega
  | succ fuel ih =>
    intro n h
    by_cases h10 : n < 10
    · simp [natDigitsGo, if_pos h10, parseDigits, digitChar_toNat h10]
    · have hdiv : n / 10 < fuel := by
        have hlt := Nat.div_lt_self (show 0 < n by omega) (show 1 < 10 by omega)
        omega
      have hmod : n % 10 < 10 := Nat.mod_lt _ (by omega)
      have hrec := ih (n / 10) hdiv
      simp only [natDigitsGo, if_neg h10, parseDigits, List.foldl_append, List.foldl_cons,
        List.foldl_nil] at *
      rw [hrec, digitChar_toNat hmod]
      omega

theorem natDigits_all_digit (n : Nat) : ∀ c ∈ natDigits n, isDigitChar c = true :=
  natDigitsGo_all_digit (n + 1) n (Nat.lt_succ_self n)

theorem natDigits_ne_nil (n : Nat) : natDigits n ≠ [] :=
  natDigitsGo_ne_nil (n + 1) n (Nat.lt_succ_self n)

theorem parseDigits_natDigits (n : Nat) : parseDigits (natDigits n) = n :=
  natDigitsGo_parse (n + 1) n (Nat.lt_succ_self n)

theorem natDigitsGo_length_two : ∀ fuel n, n < fuel → 10 ≤ n →
    2 ≤ (natDigitsGo fuel n).length := by
  intro fuel
  cases fuel with
  | zero => intro n h; omega
  | succ fuel =>
    intro n h h10
    have hdiv : n / 10 < fuel := by
      have hlt := Nat.div_lt_self (show 0 < n by omega) (show 1 < 10 by omega)
      omega
    have hne := natDigitsGo_ne_nil fuel (n / 10) hdiv
    simp only [natDigitsGo, if_neg (show ¬n < 10 by omega), List.length_append,
      List.length_singleton]
    have : 1 ≤ (natDigitsGo fuel (n / 10)).length := by
      cases hgo : natDigitsGo fuel (n / 10) with
      | nil => exact absurd hgo hne
      | cons a l => simp
    omega

theorem natDigits_length_three {n : Nat} (h : 100 ≤ n) : 3 ≤ (natDigits n).length := by
  show 3 ≤ (natDigitsGo (n + 1) n).length
  cases hf : n + 1 with
  | zero => omega
  | succ fuel =>
    have hdiv : n / 10 < fuel := by
      have hlt := Nat.div_lt_self (show 0 < n by omega) (show 1 < 10 by omega)
      omega
    have h2 := natDigitsGo_length_two fuel (n / 10) hdiv (by omega)
    simp only [natDigitsGo, if_neg (show ¬n < 10 by omega), List.length_append,
      List.length_singleton]
    omega

/-- Zero padding in front of a digit string does not change its parsed value. -/
theorem parseDigits_replicate_zero (k : Nat) (ds : List Char) :
    parseDigits (List.replicate k '0' ++ ds) = parseDigits ds := by
  induction k with
  | zero => simp
  | succ k ih =>
    simp only [List.replicate_succ, List.cons_append, parseDigits, List.foldl_cons] at *
    simpa using ih

/-- The padded digit list rendered for sequence position `i`. -/
def paddedDigits (i : Nat) : List Char :=
  List.replicate (3 - (natDigits i).length) '0' ++ natDigits i

theorem paddedDigits_ne_nil (i : Nat) : paddedDigits i ≠ [] := by
  simp [paddedDigits, natDigits_ne_nil i]

theorem paddedDigits_all_digit (i : Nat) : ∀ c ∈ paddedDigits i, isDigitChar c = true := by
  intro c hc
  rcases List.mem_append.mp hc with hc | hc
  · rw [List.eq_of_mem_replicate hc]; decide
  · exact natDigits_all_digit i c hc

theorem parseDigits_paddedDigits (i : Nat) : parseDigits (paddedDigits i) = i := by
  rw [paddedDigits, parseDigits_replicate_zero, parseDigits_natDigits]

theorem pad3_mk (ds : List Char) :
    pad3 (String.mk ds) = String.mk (List.replicate (3 - ds.length) '0' ++ ds) := by
  by_cases h : ds.length < 3
  · simp only [pad3, String.length_mk, if_pos h]
    rfl
  · simp only [pad3, String.length_mk, if_neg h]
    have h0 : 3 - ds.length = 0 := by omega
    rw [h0, List.replicate_zero, List.nil_append]

theorem mkName_eq_append (code : String) (i : Nat) :
    mkName code i = ("KLSB-" ++ code ++ "-") ++ String.mk (paddedDigits i) := by
  rw [mkName, natToDigits, pad3_mk, paddedDigits]

theorem mkName_data (code : String) (i : Nat) :
    (mkName code i).data = ("KLSB-" ++ code ++ "-" : String).data ++ paddedDigits i := by
  rw [mkName_eq_append, String.data_append]

/-! Lemmas about the extraction regex and the prefix filter. -/

theorem startsWithList_append (p x : List Char) : startsWithList p (p ++ x) = true := by
  simp [startsWithList, List.take_left]

/-- Matching the extraction regex against a name built as the prefix followed
by a nonempty digit run recovers exactly that digit run, for any prefix ending
in a dash. -/
theorem matchNum_append_digits (p : String) (q ds : List Char)
    (hp : p.data = q ++ ['-']) (hne : ds ≠ []) (hall : ∀ c ∈ ds, isDigitChar c = true) :
    matchNum p (p ++ String.mk ds) = some (parseDigits ds) := by
  have hdata : (p ++ String.mk ds).data = p.data ++ ds := String.data_append p (String.mk ds)
  have hrev : (p.data ++ ds).reverse = ds.reverse ++ ('-' :: q.reverse) := by
    rw [hp]
    simp [List.reverse_append]
  have htw : (p.data ++ ds).reverse.takeWhile isDigitChar = ds.reverse := by
    rw [hrev, List.takeWhile_append_of_pos (by intro a ha; exact hall a (List.mem_reverse.mp ha))]
    simp [List.takeWhile_cons, show isDigitChar ('-') = false by decide]
  have hds : ((p ++ String.mk ds).data.reverse.takeWhile isDigitChar).reverse = ds := by
    rw [hdata, htw, List.reverse_reverse]
  have hlen : (p.data ++ ds).length - ds.length = p.data.length := by
    simp [List.length_append]
  have hends : endsWithList p.data p.data = true := by
    simp [endsWithList]
  unfold matchNum
  simp only [hdata, htw, List.reverse_reverse]
  rw [if_neg hne, hlen, List.take_left, hends]
  simp

theorem matchNum_mkName (code : String) (i : Nat) :
    matchNum ("KLSB-" ++ code ++ "-") (mkName code i) = some i := by
  rw [mkName_eq_append,
    matchNum_append_digits ("KLSB-" ++ code ++ "-") ("KLSB-" ++ code : String).data
      (paddedDigits i) (by simp) (paddedDigits_ne_nil i) (paddedDigits_all_digit i),
    parseDigits_paddedDigits]

theorem filterMap_eq_map_of {α β : Type} (l : List α) (f : α → Option β) (g : α → β)
    (h : ∀ a ∈ l, f a = some (g a)) : l.filterMap f = l.map g := by
  induction l with
  | nil => rfl
  | cons a l ih =>
    rw [List.filterMap_cons, h a (List.mem_cons_self a l), List.map_cons,
      ih fun x hx => h x (List.mem_cons_of_mem a hx)]

theorem foldMax_map_succ_range (N : Nat) :
    ((List.range N).map (fun i => i + 1)).foldl (fun m n => if n > m then n else m) 0 = N := by
  induction N with
  | zero => rfl
  | succ N ih =>
    rw [List.range_succ, List.map_append, List.foldl_append, ih]
    simp

theorem maxSuffix_seqNames (code : String) (N : Nat) :
    maxSuffix ("KLSB-" ++ code ++ "-") (seqNames code N) = N := by
  unfold maxSuffix seqNames
  rw [List.filter_eq_self.mpr (by
    intro a ha
    rcases List.mem_map.mp ha with ⟨i, _, rfl⟩
    rw [mkName_data]
    exact startsWithList_append _ _)]
  rw [List.filterMap_map]
  rw [filterMap_eq_map_of _ _ (fun i => i + 1) (by
    intro i _
    exact matchNum_mkName code (i + 1))]
  exact foldMax_map_succ_range N

theorem castIntOpt_mkName (code : String) (i : Nat) :
    castIntOpt ((mkName code i).data.drop ("KLSB-" ++ code ++ "-" : String).length) = some i := by
  rw [mkName_data,
    show ("KLSB-" ++ code ++ "-" : String).length = ("KLSB-" ++ code ++ "-" : String).data.length
      from rfl,
    List.drop_left, castIntOpt,
    if_pos ⟨paddedDigits_ne_nil i, List.all_eq_true.mpr (paddedDigits_all_digit i)⟩,
    parseDigits_paddedDigits]

theorem get_next_asset_name_seq (code : String) (N : Nat) :
    get_next_asset_name (seqNames code N) code
      = some (("KLSB-" ++ code ++ "-") ++ pad3 (natToDigits (N + 1))) := by
  have hfilter : (seqNames code N).filter
      (fun a => startsWithList ("KLSB-" ++ code ++ "-" : String).data a.data)
      = seqNames code N :=
    List.filter_eq_self.mpr (by
      intro a ha
      rcases List.mem_map.mp ha with ⟨i, _, rfl⟩
      rw [mkName_data]
      exact startsWithList_append _ _)
  have hnums : (seqNames code N).map
      (fun a => castIntOpt (a.data.drop ("KLSB-" ++ code ++ "-" : String).length))
      = (List.range N).map (fun i => some (i + 1)) := by
    unfold seqNames
    rw [List.map_map]
    exact List.map_congr_left (fun i _ => castIntOpt_mkName code (i + 1))
  simp only [get_next_asset_name, hfilter, hnums]
  rw [if_pos (by
    rw [List.all_eq_true]
    intro o ho
    rcases List.mem_map.mp ho with ⟨i, _, rfl⟩
    rfl)]
  rw [List.filterMap_map]
  have hfm : List.filterMap (id ∘ fun i => some (i + 1)) (List.range N)
      = (List.range N).map (fun i => i + 1) :=
    filterMap_eq_map_of (List.range N) (id ∘ fun i => some (i + 1)) (fun i => i + 1)
      (fun i _ => rfl)
  rw [hfm, foldMax_map_succ_range]

theorem generateAssetName_singleton (cid : Nat) (code cname : String) (names : List String) :
    generateAssetName [⟨cid, code, cname⟩] names cid
      = ("KLSB-" ++ code ++ "-")
          ++ pad3 (natToDigits (maxSuffix ("KLSB-" ++ code ++ "-") names + 1)) := by
  simp [generateAssetName, List.find?]

theorem pad3_eq_self {s : String} (h : 3 ≤ s.length) : pad3 s = s := by
  rw [pad3, if_neg (by omega)]

/-- C1: for every category whose matching assets are exactly the names at
positions one through N with no gaps, both generateAssetName and the SQL
function return the prefix followed by N+1 zero-padded to width three, and for
a category with zero existing assets both return the prefix followed by 001
(the N = 0 instance, stated explicitly in the third conjunct). -/
theorem claim_C1_sequentialNames (code cname : String) (cid N : Nat) :
    generateAssetName [⟨cid, code, cname⟩] (seqNames code N) cid
        = ("KLSB-" ++ code ++ "-") ++ pad3 (natToDigits (N + 1))
      ∧ get_next_asset_name (seqNames code N) code
        = some (("KLSB-" ++ code ++ "-") ++ pad3 (natToDigits (N + 1)))
      ∧ generateAssetName [⟨cid, code, cname⟩] [] cid
        = ("KLSB-" ++ code ++ "-") ++ ("001" : String) := by
  refine ⟨?_, get_next_asset_name_seq code N, ?_⟩
  · rw [generateAssetName_singleton, maxSuffix_seqNames]
  · rw [generateAssetName_singleton]
    congr 1

/-- C8: extraction after generation round-trips, and past the three-digit
range the suffix simply grows without truncation or padding. -/
theorem claim_C8_rolloverRoundTrip (code cname : String) (cid : Nat) (names : List String) :
    matchNum ("KLSB-" ++ code ++ "-") (generateAssetName [⟨cid, code, cname⟩] names cid)
        = some (maxSuffix ("KLSB-" ++ code ++ "-") names + 1)
      ∧ (999 ≤ maxSuffix ("KLSB-" ++ code ++ "-") names →
          generateAssetName [⟨cid, code, cname⟩] names cid
            = ("KLSB-" ++ code ++ "-")
                ++ natToDigits (maxSuffix ("KLSB-" ++ code ++ "-") names + 1)) := by
  constructor
  · rw [generateAssetName_singleton]
    exact matchNum_mkName code (maxSuffix ("KLSB-" ++ code ++ "-") names + 1)
  · intro h
    rw [generateAssetName_singleton]
    congr 1
    exact pad3_eq_self (le_trans (natDigits_length_three (by omega)) (le_of_eq rfl))

/-- Witness for C8 at a concrete list whose maximum suffix is 999: the next
name is the prefix followed by 1000 and extraction recovers 1000. -/
theorem claim_C8_witness :
    matchNum ("KLSB-" ++ "LAP" ++ "-")
        (generateAssetName [⟨1, "LAP", "Laptop"⟩] [("KLSB-LAP-999")] 1)
        = some (maxSuffix ("KLSB-" ++ "LAP" ++ "-") [("KLSB-LAP-999")] + 1)
      ∧ 999 ≤ maxSuffix ("KLSB-" ++ "LAP" ++ "-") [("KLSB-LAP-999")]
      ∧ generateAssetName [⟨1, "LAP", "Laptop"⟩] [("KLSB-LAP-999")] 1
        = ("KLSB-" ++ "LAP" ++ "-")
            ++ natToDigits (maxSuffix ("KLSB-" ++ "LAP" ++ "-") [("KLSB-LAP-999")] + 1) := by
  have hc := claim_C8_rolloverRoundTrip "LAP" "Laptop" 1 [("KLSB-LAP-999")]
  have h9 : 999 ≤ maxSuffix ("KLSB-" ++ "LAP" ++ "-") [("KLSB-LAP-999")] := by decide
  exact ⟨hc.1, h9, hc.2 h9⟩

/-- C10: for a category id absent from the loaded category list the generator
returns the empty string whatever the asset list holds, and that empty name is
rejected only by the required-name check at the top of saveAsset. -/
theorem claim_C10_unknownCategory (cats : List Category) (names : List String) (cid : Nat)
    (h : cats.find? (fun c => c.id == cid) = none) :
    generateAssetName cats names cid = ""
      ∧ ∀ catId : Option Nat,
          saveAssetValidationError (generateAssetName cats names cid) catId
            = some ("Asset name is required") := by
  have hgen : generateAssetName cats names cid = "" := by
    rw [generateAssetName, h]
  refine ⟨hgen, fun catId => ?_⟩
  rw [hgen]
  rfl

/-- Witness for C10 at a concrete unknown category id. -/
theorem claim_C10_witness :
    ([(⟨1, "LAP", "Laptop"⟩ : Category)].find? (fun c => c.id == 2) = none)
      ∧ generateAssetName [⟨1, "LAP", "Laptop"⟩] [("KLSB-LAP-001")] 2 = ""
      ∧ saveAssetValidationError (generateAssetName [⟨1, "LAP", "Laptop"⟩] [("KLSB-LAP-001")] 2)
          (some 1) = some ("Asset name is required") := by
  have h : ([(⟨1, "LAP", "Laptop"⟩ : Category)].find? (fun c => c.id == 2) = none) := by decide
  have hc := claim_C10_unknownCategory [⟨1, "LAP", "Laptop"⟩] [("KLSB-LAP-001")] 2 h
  exact ⟨h, hc.1, hc.2 (some 1)⟩

/-! Lemmas about the stable ascending sort of the reconstruction. -/

theorem mem_insertByKey {x a : HistoryRow} :
    ∀ {l : List HistoryRow}, a ∈ insertByKey x l ↔ a = x ∨ a ∈ l := by
  intro l
  induction l with
  | nil => simp [insertByKey]
  | cons y ys ih =>
    by_cases h : changeKey x ≤ changeKey y
    · rw [insertByKey, if_pos h]
      simp
    · rw [insertByKey, if_neg h]
      simp only [List.mem_cons, ih]
      tauto

theorem mem_sortByKey {a : HistoryRow} :
    ∀ {l : List HistoryRow}, a ∈ sortByKey l ↔ a ∈ l := by
  intro l
  induction l with
  | nil => simp [sortByKey]
  | cons y ys ih => simp [sortByKey, mem_insertByKey, ih]

theorem pairwise_insertByKey {x : HistoryRow} :
    ∀ {l : List HistoryRow}, l.Pairwise (fun a b => changeKey a ≤ changeKey b) →
      (insertByKey x l).Pairwise (fun a b => changeKey a ≤ changeKey b) := by
  intro l
  induction l with
  | nil => intro _; simp [insertByKey]
  | cons y ys ih =>
    intro hp
    rcases List.pairwise_cons.mp hp with ⟨hy, hys⟩
    by_cases h : changeKey x ≤ changeKey y
    · rw [insertByKey, if_pos h]
      refine List.pairwise_cons.mpr ⟨?_, hp⟩
      intro b hb
      rcases List.mem_cons.mp hb with rfl | hb
      · exact h
      · exact le_trans h (hy b hb)
    · rw [insertByKey, if_neg h]
      refine List.pairwise_cons.mpr ⟨?_, ih hys⟩
      intro b hb
      rcases mem_insertByKey.mp hb with rfl | hb
      · omega
      · exact hy b hb

theorem sortByKey_pairwise :
    ∀ l : List HistoryRow, (sortByKey l).Pairwise (fun a b => changeKey a ≤ changeKey b) := by
  intro l
  induction l with
  | nil => simp [sortByKey]
  | cons y ys ih => exact pairwise_insertByKey ih

/-- In a key-sorted list the last element has maximal key. -/
theorem pairwise_getLast_max :
    ∀ l : List HistoryRow, l.Pairwise (fun a b => changeKey a ≤ changeKey b) →
      ∀ z, l.getLast? = some z → ∀ a ∈ l, changeKey a ≤ changeKey z := by
  intro l
  induction l with
  | nil => intro _ z hz; simp at hz
  | cons y ys ih =>
    intro hp z hz a ha
    rcases List.pairwise_cons.mp hp with ⟨hy, hys⟩
    cases ys with
    | nil =>
      simp only [List.getLast?_singleton, Option.some.injEq] at hz
      rcases List.mem_singleton.mp ha with rfl
      rw [← hz]
    | cons w ws =>
      have hz2 : (w :: ws).getLast? = some z := by
        rw [← hz, List.getLast?_cons_cons]
      rcases List.mem_cons.mp ha with rfl | ha
      · exact hy z (List.mem_of_getLast?_eq_some hz2)
      · exact ih hys z hz2 a ha

/-- C2: at every cutoff, when no audit row of the asset has key at or before
the cutoff the attributed status is the asset's current status, not the
default active; otherwise it is the new value of the last filtered row after
the ascending stable sort by the effective-date-or-record-time key, and that
row's key is maximal among the filtered rows. The hypothesis records that
audit rows carry real status values (the application always writes new_value
from the status enum, never null or empty). -/
theorem claim_C2_statusAtCutoff (history : List HistoryRow) (a : AssetRec) (t : Int)
    (hv : ∀ h ∈ history, jsTruthyStr h.new_value = true) :
    (historyUpTo history a.id t = [] → statusAtMonth history a t = a.status)
      ∧ ∀ last, (sortByKey (historyUpTo history a.id t)).getLast? = some last →
          statusAtMonth history a t = jsStr last.new_value
            ∧ ∀ h ∈ historyUpTo history a.id t, changeKey h ≤ changeKey last := by
  constructor
  · intro hnil
    simp [statusAtMonth, hnil, sortByKey]
  · intro last hlast
    have hmem : last ∈ historyUpTo history a.id t :=
      mem_sortByKey.mp (List.mem_of_getLast?_eq_some hlast)
    have hmem2 : last ∈ history := List.mem_of_mem_filter hmem
    have htr := hv last hmem2
    refine ⟨?_, fun h hmem3 =>
      pairwise_getLast_max _ (sortByKey_pairwise _) last hlast h (mem_sortByKey.mpr hmem3)⟩
    cases hnv : last.new_value with
    | none => rw [hnv] at htr; simp [jsTruthyStr] at htr
    | some s =>
      have hsne : s ≠ "" := by
        rw [hnv] at htr
        simpa [jsTruthyStr] using htr
      simp only [statusAtMonth, hlast, hnv, if_neg hsne]
      rfl

/-- Witness for C2: one backdated audit row; at a cutoff after its effective
date the attributed status is its new value, at a cutoff before it the
attributed status is the asset's current status. -/
theorem claim_C2_witness :
    statusAtMonth [⟨1, some ("maintenance"), some 5, 100⟩] ⟨1, "inactive", 0⟩ 7 = "maintenance"
      ∧ statusAtMonth [⟨1, some ("maintenance"), some 5, 100⟩] ⟨1, "inactive", 0⟩ 3
          = "inactive" := by
  have hv : ∀ h ∈ [(⟨1, some ("maintenance"), some 5, 100⟩ : HistoryRow)],
      jsTruthyStr h.new_value = true := by decide
  have hc := claim_C2_statusAtCutoff [⟨1, some ("maintenance"), some 5, 100⟩]
    ⟨1, "inactive", 0⟩ 7 hv
  have hc2 := claim_C2_statusAtCutoff [⟨1, some ("maintenance"), some 5, 100⟩]
    ⟨1, "inactive", 0⟩ 3 hv
  exact ⟨(hc.2 ⟨1, some ("maintenance"), some 5, 100⟩ (by decide)).1, hc2.1 (by decide)⟩

/-- C5: an asset is counted in a bucket exactly when its creation time is at or
before the cutoff or some audit row of it has key at or before the cutoff; in
particular an asset created after the cutoff holding a backdated entry is
still counted. -/
theorem claim_C5_bucketMembership (history : List HistoryRow) (a : AssetRec) (t : Int) :
    countedInBucket history a t = true
      ↔ a.created_at ≤ t ∨ ∃ h ∈ history, h.asset_id = a.id ∧ changeKey h ≤ t := by
  constructor
  · intro hcount
    by_cases hc : a.created_at ≤ t
    · exact Or.inl hc
    · right
      have hne : historyUpTo history a.id t ≠ [] := by
        intro hnil
        rw [countedInBucket, hnil] at hcount
        simp at hcount
        omega
      rcases List.exists_mem_of_ne_nil _ hne with ⟨h, hh⟩
      rcases List.mem_filter.mp hh with ⟨hmem, hcond⟩
      rw [Bool.and_eq_true] at hcond
      exact ⟨h, hmem, by simpa using hcond.1, by simpa using hcond.2⟩
  · intro hor
    rw [countedInBucket]
    rcases hor with hc | ⟨h, hmem, hid, hkey⟩
    · simp [show ¬t < a.created_at by omega]
    · have hin : h ∈ historyUpTo history a.id t :=
        List.mem_filter.mpr ⟨hmem, by simp [hid, hkey]⟩
      cases hfil : historyUpTo history a.id t with
      | nil => rw [hfil] at hin; simp at hin
      | cons b bs => simp [hfil]

/-! Lemmas about the change tracker. -/

theorem mem_ite_singleton {α : Type} {P : Prop} [Decidable P] {x y : α}
    (h : x ∈ if P then [y] else ([] : List α)) : x = y ∧ P := by
  split_ifs at h with hp
  · exact ⟨List.mem_singleton.mp h, hp⟩
  · simp at h

/-- C3: trackChanges produces exactly one change per tracked field whose
normalised old and new values differ, listed in source order (so zero changes
when no tracked field differs), and the staff and category changes record
resolved display names, not foreign-key ids. -/
theorem claim_C3_trackChanges (staffList : List StaffRec) (cats : List Category)
    (o n : AssetFields) (d : Option String) :
    ((trackChangesList staffList cats o n d).map (fun c => c.field_name)
        = (if o.status ≠ n.status then [("status" : String)] else [])
          ++ (if o.staff_id ≠ n.staff_id then [("assigned_to" : String)] else [])
          ++ (if o.category_id ≠ n.category_id then [("category" : String)] else [])
          ++ (if jsStr o.serial_number ≠ jsStr n.serial_number then
                [("serial_number" : String)] else [])
          ++ (if jsStr o.description ≠ jsStr n.description then
                [("description" : String)] else [])
          ++ (if jsStr o.purchase_date ≠ jsStr n.purchase_date then
                [("purchase_date" : String)] else []))
      ∧ (o.status = n.status → o.staff_id = n.staff_id → o.category_id = n.category_id →
          jsStr o.serial_number = jsStr n.serial_number →
          jsStr o.description = jsStr n.description →
          jsStr o.purchase_date = jsStr n.purchase_date →
          trackChangesList staffList cats o n d = [])
      ∧ (∀ c ∈ trackChangesList staffList cats o n d, c.field_name = "assigned_to" →
          c.old_value = resolveStaffName staffList o.staff_id
            ∧ c.new_value = resolveStaffName staffList n.staff_id)
      ∧ (∀ c ∈ trackChangesList staffList cats o n d, c.field_name = "category" →
          c.old_value = resolveCategoryName cats o.category_id
            ∧ c.new_value = resolveCategoryName cats n.category_id) := by
  refine ⟨?_, ?_, ?_, ?_⟩
  · simp only [trackChangesList, List.map_append,
      apply_ite (List.map fun c : Change => c.field_name), List.map_cons, List.map_nil]
  · intro h1 h2 h3 h4 h5 h6
    simp [trackChangesList, h1, h2, h3, h4, h5, h6]
  · intro c hc hf
    simp only [trackChangesList, List.mem_append] at hc
    rcases hc with ((((hc | hc) | hc) | hc) | hc) | hc <;>
      rcases mem_ite_singleton hc with ⟨rfl, hcond⟩ <;>
      first
        | exact ⟨rfl, rfl⟩
        | simp at hf
  · intro c hc hf
    simp only [trackChangesList, List.mem_append] at hc
    rcases hc with ((((hc | hc) | hc) | hc) | hc) | hc <;>
      rcases mem_ite_singleton hc with ⟨rfl, hcond⟩ <;>
      first
        | exact ⟨rfl, rfl⟩
        | simp at hf

/-- Witness for C3: a staff reassignment together with a serial number moving
from null to the empty string yields exactly one change, an assigned_to entry
carrying resolved names; identical snapshots yield no change at all. -/
theorem claim_C3_witness :
    ((trackChangesList [⟨3, "Ali"⟩] [⟨1, "LAP", "Laptop"⟩]
        ⟨"KLSB-LAP-001", "active", some 3, some 1, none, none, none⟩
        ⟨"KLSB-LAP-001", "active", none, some 1, some (""), none, none⟩ none).map
        (fun c => c.field_name) = [("assigned_to" : String)])
      ∧ (∀ c ∈ trackChangesList [⟨3, "Ali"⟩] [⟨1, "LAP", "Laptop"⟩]
            ⟨"KLSB-LAP-001", "active", some 3, some 1, none, none, none⟩
            ⟨"KLSB-LAP-001", "active", none, some 1, some (""), none, none⟩ none,
          c.field_name = "assigned_to" →
            c.old_value = resolveStaffName [⟨3, "Ali"⟩] (some 3)
              ∧ c.new_value = resolveStaffName [⟨3, "Ali"⟩] none)
      ∧ trackChangesList [⟨3, "Ali"⟩] [⟨1, "LAP", "Laptop"⟩]
          ⟨"KLSB-LAP-001", "active", some 3, some 1, none, none, none⟩
          ⟨"KLSB-LAP-001", "active", some 3, some 1, none, none, none⟩ none = [] := by
  have hc := claim_C3_trackChanges [⟨3, "Ali"⟩] [⟨1, "LAP", "Laptop"⟩]
    ⟨"KLSB-LAP-001", "active", some 3, some 1, none, none, none⟩
    ⟨"KLSB-LAP-001", "active", none, some 1, some (""), none, none⟩ none
  have hd := claim_C3_trackChanges [⟨3, "Ali"⟩] [⟨1, "LAP", "Laptop"⟩]
    ⟨"KLSB-LAP-001", "active", some 3, some 1, none, none, none⟩
    ⟨"KLSB-LAP-001", "active", some 3, some 1, none, none, none⟩ none
  refine ⟨?_, hc.2.2.1, hd.2.1 rfl rfl rfl rfl rfl rfl⟩
  rw [hc.1]
  decide

theorem insertLoop_length (cs : List Change) :
    ∀ (fs : List Bool) (aid : Nat) (uid : String),
      (insertLoop aid uid cs fs).1.length + (insertLoop aid uid cs fs).2.length
        = cs.length := by
  induction cs with
  | nil => intro fs aid uid; rfl
  | cons c cs ih =>
    intro fs aid uid
    have hrec := ih fs.tail aid uid
    by_cases hf : fs.headD false = true
    · simp only [insertLoop]
      rw [if_pos hf]
      simp only [List.length_cons]
      omega
    · simp only [insertLoop]
      rw [if_neg hf]
      simp only [List.length_cons]
      omega

theorem insertLoop_mem (cs : List Change) :
    ∀ (fs : List Bool) (aid : Nat) (uid : String) r,
      r ∈ (insertLoop aid uid cs fs).1 → ∃ c ∈ cs, r = changeToInsert aid uid c := by
  induction cs with
  | nil => intro fs aid uid r hr; simp [insertLoop] at hr
  | cons c cs ih =>
    intro fs aid uid r hr
    by_cases hf : fs.headD false = true
    · simp only [insertLoop, hf, if_true] at hr
      rcases ih fs.tail aid uid r hr with ⟨c2, hc2, hr2⟩
      exact ⟨c2, List.mem_cons_of_mem c hc2, hr2⟩
    · simp only [insertLoop, hf, if_false, Bool.false_eq_true] at hr
      rcases List.mem_cons.mp hr with rfl | hr
      · exact ⟨c, List.mem_cons_self c cs, rfl⟩
      · rcases ih fs.tail aid uid r hr with ⟨c2, hc2, hr2⟩
        exact ⟨c2, List.mem_cons_of_mem c hc2, hr2⟩

/-- C4: when the primary update succeeds, audit-insert failures are invisible
to the caller: the update ran once, no form error is set, the modal is closed
and the data refetched, the committed assets table is the updated one and does
not depend on which audit inserts failed, and every change is either inserted
or logged. -/
theorem claim_C4_auditFailureSwallowed (user : Option String) (staffList : List StaffRec)
    (cats : List Category) (db : AssetsDb) (eid : Nat) (o p : AssetFields)
    (d : Option String) (failFlags : List Bool) :
    (runSaveAssetUpdate user staffList cats db eid o p d none failFlags).updateAttempts = 1
      ∧ (runSaveAssetUpdate user staffList cats db eid o p d none failFlags).formError = none
      ∧ (runSaveAssetUpdate user staffList cats db eid o p d none failFlags).modalClosed = true
      ∧ (runSaveAssetUpdate user staffList cats db eid o p d none failFlags).refreshed = true
      ∧ (runSaveAssetUpdate user staffList cats db eid o p d none failFlags).db.assets
          = applyUpdate db.assets eid p
      ∧ (∀ failFlags₂,
          (runSaveAssetUpdate user staffList cats db eid o p d none failFlags₂).db.assets
            = (runSaveAssetUpdate user staffList cats db eid o p d none failFlags).db.assets)
      ∧ ∀ uid, (runTrackChanges (some uid) staffList cats eid o p d failFlags).1.length
            + (runTrackChanges (some uid) staffList cats eid o p d failFlags).2.length
          = (trackChangesList staffList cats o p d).length := by
  exact ⟨rfl, rfl, rfl, rfl, rfl, fun _ => rfl,
    fun uid => insertLoop_length (trackChangesList staffList cats o p d) failFlags eid uid⟩

theorem trackChangesList_nonstatus (sl : List StaffRec) (cl : List Category)
    (o n : AssetFields) (d : Option String) :
    ∀ c ∈ trackChangesList sl cl o n d, c.field_name ≠ "status" → c.custom_date = none := by
  intro c hc hf
  simp only [trackChangesList, List.mem_append] at hc
  rcases hc with ((((hc | hc) | hc) | hc) | hc) | hc <;>
    rcases mem_ite_singleton hc with ⟨rfl, hcond⟩ <;>
    first
      | exact absurd rfl hf
      | rfl

theorem trackChangesList_status (sl : List StaffRec) (cl : List Category)
    (o n : AssetFields) (d : Option String) :
    ∀ c ∈ trackChangesList sl cl o n d, c.field_name = "status" →
      o.status ≠ n.status ∧ c.custom_date = d := by
  intro c hc hf
  simp only [trackChangesList, List.mem_append] at hc
  rcases hc with ((((hc | hc) | hc) | hc) | hc) | hc <;>
    rcases mem_ite_singleton hc with ⟨rfl, hcond⟩ <;>
    first
      | exact ⟨hcond, rfl⟩
      | simp at hf

/-- C6: among the audit rows written for an asset update only the status row
carries an effective date, namely the user-entered status date (absent when
that date was left empty), and a status row exists only when the status
differs from the original; the staff location row likewise carries the
optional entered date, null when none was entered. -/
theorem claim_C6_effectiveDates (user : Option String) (staffList : List StaffRec)
    (cats : List Category) (aid : Nat) (o n : AssetFields) (formStatusDate : String)
    (failFlags : List Bool) :
    (∀ r ∈ (runTrackChanges user staffList cats aid o n
        (saveAssetStatusDate n.status o.status formStatusDate) failFlags).1,
        r.field_name ≠ "status" → r.effective_date = none)
      ∧ (∀ r ∈ (runTrackChanges user staffList cats aid o n
          (saveAssetStatusDate n.status o.status formStatusDate) failFlags).1,
          r.field_name = "status" →
            r.effective_date = (if formStatusDate = "" then none else some formStatusDate))
      ∧ (o.status = n.status →
          ∀ r ∈ (runTrackChanges user staffList cats aid o n
            (saveAssetStatusDate n.status o.status formStatusDate) failFlags).1,
            r.field_name ≠ "status")
      ∧ (∀ (locations : List LocationRec) (u : Option String) (sid : Nat)
          (oldL newL : Option Nat) (dt : String) row,
          staffLocationHistoryRow locations u sid oldL newL dt = some row →
            row.field_name = "location"
              ∧ row.effective_date = (if dt = "" then none else some dt)) := by
  cases user with
  | none =>
    refine ⟨?_, ?_, ?_, ?_⟩
    · intro r hr; simp [runTrackChanges] at hr
    · intro r hr; simp [runTrackChanges] at hr
    · intro _ r hr; simp [runTrackChanges] at hr
    · intro locations u sid oldL newL dt row hrow
      rw [staffLocationHistoryRow] at hrow
      split_ifs at hrow with hloc hdt
      · rw [Option.some.injEq] at hrow
        subst hrow
        exact ⟨rfl, by rw [if_pos hdt]⟩
      · rw [Option.some.injEq] at hrow
        subst hrow
        exact ⟨rfl, by rw [if_neg hdt]⟩
  | some uid =>
    refine ⟨?_, ?_, ?_, ?_⟩
    · intro r hr hf
      rcases insertLoop_mem _ failFlags aid uid r hr with ⟨c, hcmem, rfl⟩
      have hcd := trackChangesList_nonstatus staffList cats o n _ c hcmem hf
      simp [changeToInsert, hcd, jsTruthyStr]
    · intro r hr hf
      rcases insertLoop_mem _ failFlags aid uid r hr with ⟨c, hcmem, rfl⟩
      rcases trackChangesList_status staffList cats o n _ c hcmem hf with ⟨hne, hcd⟩
      rw [saveAssetStatusDate, if_pos (fun he => hne he.symm)] at hcd
      by_cases hd : formStatusDate = ""
      · simp [changeToInsert, hcd, jsTruthyStr, hd]
      · simp [changeToInsert, hcd, jsTruthyStr, hd]
    · intro hstat r hr hf
      rcases insertLoop_mem _ failFlags aid uid r hr with ⟨c, hcmem, rfl⟩
      rcases trackChangesList_status staffList cats o n _ c hcmem hf with ⟨hne, _⟩
      exact hne hstat
    · intro locations u sid oldL newL dt row hrow
      rw [staffLocationHistoryRow] at hrow
      split_ifs at hrow with hloc hdt
      · rw [Option.some.injEq] at hrow
        subst hrow
        exact ⟨rfl, by rw [if_pos hdt]⟩
      · rw [Option.some.injEq] at hrow
        subst hrow
        exact ⟨rfl, by rw [if_neg hdt]⟩

/-- Witness for C6: a concrete status change with an entered date produces one
status row carrying that date as effective date, and a concrete location
change with the date field left empty produces a location row with no
effective date. -/
theorem claim_C6_witness :
    (∀ r ∈ (runTrackChanges (some ("u1")) [] [] 1
        ⟨"KLSB-LAP-001", "active", none, some 1, none, none, none⟩
        ⟨"KLSB-LAP-001", "maintenance", none, some 1, none, none, none⟩
        (saveAssetStatusDate "maintenance" "active" "2024-02-03") []).1,
        r.field_name = "status" → r.effective_date = some ("2024-02-03"))
      ∧ ∀ row, staffLocationHistoryRow [⟨2, "HQ"⟩] (some ("u1")) 5 none (some 2) "" = some row →
          row.field_name = "location" ∧ row.effective_date = none := by
  have hc := claim_C6_effectiveDates (some ("u1")) [] [] 1
    ⟨"KLSB-LAP-001", "active", none, some 1, none, none, none⟩
    ⟨"KLSB-LAP-001", "maintenance", none, some 1, none, none, none⟩ "2024-02-03" []
  refine ⟨fun r hr hf => ?_, fun row hrow => hc.2.2.2 [⟨2, "HQ"⟩] (some ("u1")) 5 none
    (some 2) "" row hrow⟩
  have := hc.2.1 r hr hf
  simpa using this

/-! Error mapping of the save functions. -/

/-- C7 counterexample: a failed category save whose error has code 23505 but a
message without the word duplicate surfaces the raw message, not the
per-field message the claim requires for every uniqueness violation. -/
theorem claim_C7_counterexample :
    saveCategoryErrorMessage ⟨("x"), some ("23505")⟩ = "x"
      ∧ saveCategoryErrorMessage ⟨("x"), some ("23505")⟩ ≠ "Category code already exists" := by
  constructor <;> decide

/-- C7 amended: asset, staff and license saves map any error whose message
contains duplicate or whose code is 23505 to their per-field message (with the
generic duplicate message when neither field name occurs); category saves do
so only when the message contains duplicate; and any failed insert leaves the
existing rows unchanged and surfaces the mapped message. -/
theorem claim_C7_amendedDuplicates (e : DbError) :
    ((strIncludes e.message ("duplicate") || e.code == some ("23505")) = true →
        saveAssetErrorMessage e
            = (if strIncludes e.message ("asset_name") then "Asset name already exists"
               else if strIncludes e.message ("serial_number") then
                 "Serial number already exists"
               else "Duplicate entry")
          ∧ saveStaffErrorMessage e = "Staff ID already exists"
          ∧ saveLicenseErrorMessage e = "License key already exists")
      ∧ (strIncludes e.message ("duplicate") = true →
          saveCategoryErrorMessage e = "Category code already exists")
      ∧ ∀ (rows : List (Nat × AssetFields)) (row : Nat × AssetFields)
          (mapErr : DbError → String),
          (runInsertRow rows row (some e) mapErr).1 = rows
            ∧ (runInsertRow rows row (some e) mapErr).2 = some (mapErr e) := by
  refine ⟨fun hdup => ⟨?_, ?_, ?_⟩, fun hdup => ?_, fun rows row mapErr => ⟨rfl, rfl⟩⟩
  · rw [saveAssetErrorMessage, if_pos hdup]
  · rw [saveStaffErrorMessage, if_pos hdup]
  · rw [saveLicenseErrorMessage, if_pos hdup]
  · rw [saveCategoryErrorMessage, if_pos hdup]

/-- Witness for C7 amended at the real Postgres duplicate-key message. -/
theorem claim_C7_witness :
    saveAssetErrorMessage
        ⟨("duplicate key value violates unique constraint"), some ("23505")⟩
        = "Duplicate entry"
      ∧ saveStaffErrorMessage
          ⟨("duplicate key value violates unique constraint"), some ("23505")⟩
          = "Staff ID already exists"
      ∧ saveLicenseErrorMessage
          ⟨("duplicate key value violates unique constraint"), some ("23505")⟩
          = "License key already exists"
      ∧ saveCategoryErrorMessage
          ⟨("duplicate key value violates unique constraint"), some ("23505")⟩
          = "Category code already exists" := by
  have hc := claim_C7_amendedDuplicates
    ⟨("duplicate key value violates unique constraint"), some ("23505")⟩
  have hdup : (strIncludes ("duplicate key value violates unique constraint") ("duplicate")
      || (some ("23505") : Option String) == some ("23505")) = true := by decide
  have hmsg : strIncludes ("duplicate key value violates unique constraint") ("duplicate")
      = true := by decide
  rcases hc.1 hdup with ⟨ha, hs, hl⟩
  refine ⟨?_, hs, hl, hc.2.1 hmsg⟩
  rw [ha]
  decide

/-! Lemmas about trimming and upper-casing category codes. -/

theorem toNat_ofNat_valid {n : Nat} (h : n < 55296) : (Char.ofNat n).toNat = n := by
  rw [Char.ofNat, dif_pos (Or.inl h)]
  rfl

theorem jsCharUpper_toNat {c : Char} (h : 97 ≤ c.toNat ∧ c.toNat ≤ 122) :
    (jsCharUpper c).toNat = c.toNat - 32 := by
  rw [jsCharUpper, if_pos h]
  exact toNat_ofNat_valid (by omega)

theorem isWsChar_jsCharUpper (c : Char) : isWsChar (jsCharUpper c) = isWsChar c := by
  by_cases h : 97 ≤ c.toNat ∧ c.toNat ≤ 122
  · have hup := jsCharUpper_toNat h
    have h1 : isWsChar (jsCharUpper c) = false := by
      simp only [isWsChar, hup, Bool.or_eq_false_iff, beq_eq_false_iff_ne, ne_eq]
      omega
    have h2 : isWsChar c = false := by
      simp only [isWsChar, Bool.or_eq_false_iff, beq_eq_false_iff_ne, ne_eq]
      omega
    rw [h1, h2]
  · rw [jsCharUpper, if_neg h]

theorem jsCharUpper_not_lower (c : Char) :
    ¬(97 ≤ (jsCharUpper c).toNat ∧ (jsCharUpper c).toNat ≤ 122) := by
  by_cases h : 97 ≤ c.toNat ∧ c.toNat ≤ 122
  · rw [jsCharUpper_toNat h]
    omega
  · rw [jsCharUpper, if_neg h]
    exact h

theorem jsCharUpper_idem (c : Char) : jsCharUpper (jsCharUpper c) = jsCharUpper c := by
  rw [jsCharUpper, if_neg (jsCharUpper_not_lower c)]

theorem dropWhile_idem {α : Type} (p : α → Bool) :
    ∀ l : List α, (l.dropWhile p).dropWhile p = l.dropWhile p := by
  intro l
  induction l with
  | nil => rfl
  | cons a t ih =>
    by_cases h : p a = true
    · rw [List.dropWhile_cons_of_pos h]
      exact ih
    · rw [List.dropWhile_cons_of_neg h, List.dropWhile_cons_of_neg h]

theorem dropWhile_of_head?_not {α : Type} {p : α → Bool} {l : List α} {z : α}
    (hz : l.head? = some z) (hp : p z = false) : l.dropWhile p = l := by
  cases l with
  | nil => simp at hz
  | cons a t =>
    rw [List.head?_cons, Option.some.injEq] at hz
    subst hz
    exact List.dropWhile_cons_of_neg (by rw [hp]; exact Bool.false_ne_true)

theorem head?_dropWhile_eq_some {α : Type} {p : α → Bool} {l : List α} {z : α}
    (hz : (l.dropWhile p).head? = some z) : p z = false := by
  have hmatch := List.head?_dropWhile_not p l
  rw [hz] at hmatch
  exact hmatch

/-- The last element of a both-ends trim is the head of the left trim, so it
never satisfies the trimmed predicate; hence trimming again from the left does
nothing. -/
theorem dropWhile_trimData (l : List Char) :
    (trimData l).dropWhile isWsChar = trimData l := by
  unfold trimData
  by_cases hrne : (l.dropWhile isWsChar).reverse.dropWhile isWsChar = []
  · rw [hrne]
    simp
  · rcases List.dropWhile_suffix (l := (l.dropWhile isWsChar).reverse) isWsChar
      with ⟨pre, hpre⟩
    have hlast : ((l.dropWhile isWsChar).reverse.dropWhile isWsChar).getLast?
        = (l.dropWhile isWsChar).reverse.getLast? := by
      conv_rhs => rw [← hpre]
      exact (List.getLast?_append_of_ne_nil pre hrne).symm
    rw [List.getLast?_reverse] at hlast
    have hhead : ((l.dropWhile isWsChar).reverse.dropWhile isWsChar).reverse.head?
        = (l.dropWhile isWsChar).head? := by
      rw [List.head?_reverse, hlast]
    cases hh : (l.dropWhile isWsChar).head? with
    | none =>
      have hnil : l.dropWhile isWsChar = [] := List.head?_eq_none_iff.mp hh
      rw [hnil] at hrne
      simp at hrne
    | some z =>
      have hpz : isWsChar z = false := head?_dropWhile_eq_some hh
      rw [hh] at hhead
      exact dropWhile_of_head?_not hhead hpz

theorem trimData_idem (l : List Char) : trimData (trimData l) = trimData l := by
  rw [trimData, dropWhile_trimData, trimData, List.reverse_reverse, dropWhile_idem]

theorem trimData_map_jsCharUpper (l : List Char) :
    trimData (l.map jsCharUpper) = (trimData l).map jsCharUpper := by
  have hcomp : (isWsChar ∘ jsCharUpper) = isWsChar := funext isWsChar_jsCharUpper
  unfold trimData
  rw [List.dropWhile_map, hcomp, ← List.map_reverse, List.dropWhile_map, hcomp,
    ← List.map_reverse]

theorem saveCategoryCode_idem (raw : String) :
    saveCategoryCode (saveCategoryCode raw) = saveCategoryCode raw := by
  have hdata : (trimData ((trimData raw.data).map jsCharUpper)).map jsCharUpper
      = (trimData raw.data).map jsCharUpper := by
    rw [trimData_map_jsCharUpper, trimData_idem, List.map_map]
    exact List.map_congr_left (fun c _ => jsCharUpper_idem c)
  show String.mk ((trimData ((trimData raw.data).map jsCharUpper)).map jsCharUpper)
      = String.mk ((trimData raw.data).map jsCharUpper)
  exact congrArg String.mk hdata

theorem jsTrim_saveCategoryCode (raw : String) :
    jsTrim (saveCategoryCode raw) = saveCategoryCode raw := by
  have hdata : trimData ((trimData raw.data).map jsCharUpper)
      = (trimData raw.data).map jsCharUpper := by
    rw [trimData_map_jsCharUpper, trimData_idem]
  show String.mk (trimData ((trimData raw.data).map jsCharUpper))
      = String.mk ((trimData raw.data).map jsCharUpper)
  exact congrArg String.mk hdata

theorem trimData_length_le (l : List Char) : (trimData l).length ≤ l.length := by
  unfold trimData
  rw [List.length_reverse]
  calc ((l.dropWhile isWsChar).reverse.dropWhile isWsChar).length
      ≤ (l.dropWhile isWsChar).reverse.length :=
        (List.dropWhile_suffix isWsChar).sublist.length_le
    _ = (l.dropWhile isWsChar).length := List.length_reverse _
    _ ≤ l.length := (List.dropWhile_suffix isWsChar).sublist.length_le

theorem saveCategoryCode_length (raw : String) :
    (saveCategoryCode raw).length ≤ raw.length := by
  show ((trimData raw.data).map jsCharUpper).length ≤ raw.data.length
  rw [List.length_map]
  exact trimData_length_le raw.data

theorem saveCategoryCode_no_lower (raw : String) :
    ∀ c ∈ (saveCategoryCode raw).data, ¬(97 ≤ c.toNat ∧ c.toNat ≤ 122) := by
  intro c hc
  have hc2 : c ∈ (trimData raw.data).map jsCharUpper := hc
  rcases List.mem_map.mp hc2 with ⟨x, _, rfl⟩
  exact jsCharUpper_not_lower x

/-- C9: the category code persisted by saveCategory is the trimmed, upper-cased
form of the entered code; when the entered code respects the form's ten
character limit so does the stored code; the stored code is a fixed point of
trim-then-uppercase, carries no surrounding whitespace, and contains no
lower-case ASCII letter — hence the middle segment of every generated asset
name (which is exactly the stored code) contains none either. -/
theorem claim_C9_codeNormalisation (raw : String) (hlen : raw.length ≤ 10) :
    saveCategoryCode raw = jsToUpper (jsTrim raw)
      ∧ (saveCategoryCode raw).length ≤ 10
      ∧ saveCategoryCode (saveCategoryCode raw) = saveCategoryCode raw
      ∧ jsTrim (saveCategoryCode raw) = saveCategoryCode raw
      ∧ (∀ c ∈ (saveCategoryCode raw).data, ¬(97 ≤ c.toNat ∧ c.toNat ≤ 122))
      ∧ ∀ (cid : Nat) (cname : String) (names : List String),
          generateAssetName [⟨cid, saveCategoryCode raw, cname⟩] names cid
            = ("KLSB-" ++ saveCategoryCode raw ++ "-")
                ++ pad3 (natToDigits
                    (maxSuffix ("KLSB-" ++ saveCategoryCode raw ++ "-") names + 1)) :=
  ⟨rfl, le_trans (saveCategoryCode_length raw) hlen, saveCategoryCode_idem raw,
    jsTrim_saveCategoryCode raw, saveCategoryCode_no_lower raw,
    fun cid cname names => generateAssetName_singleton cid (saveCategoryCode raw) cname names⟩

/-- Witness for C9 at a concrete entered code with surrounding blanks and
lower-case letters. -/
theorem claim_C9_witness :
    ((" lap " : String).length ≤ 10)
      ∧ saveCategoryCode (saveCategoryCode (" lap ")) = saveCategoryCode (" lap ")
      ∧ jsTrim (saveCategoryCode (" lap ")) = saveCategoryCode (" lap ")
      ∧ (saveCategoryCode (" lap ")).length ≤ 10
      ∧ saveCategoryCode (" lap ") = "LAP" := by
  have h10 : (" lap " : String).length ≤ 10 := by decide
  have hc := claim_C9_codeNormalisation (" lap ") h10
  exact ⟨h10, hc.2.2.1, hc.2.2.2.1, hc.2.1, by decide⟩

end AssetMgmt
